import Mathlib

/-!
Verification of the pricing-and-risk engine of the `ai-builder` repository:
the generalized Black-Scholes pricer (`src/situational/pricing.py`) and the
finite-difference Greeks / portfolio aggregation module
(`src/situational/greeks.py`), shallowly embedded over the real numbers.
Python's `round(x, n)` (round-half-to-even on the decimal value) is modelled
by `pyRound`; Python exceptions (`ValueError` from `math.log`,
`ZeroDivisionError` from `/ 0.0`, `KeyError` from a missing dict key) are
modelled by `Option`-valued functions returning `none`.
-/
open MeasureTheory Real Set

-- ───────────────────────── Python decimal rounding ─────────────────────────
/-- Round a real to the nearest integer, ties to even (Python `round`). -/
noncomputable def roundHalfEven (y : ℝ) : ℤ :=
  if Int.fract y = 1 / 2 then 2 * round (y / 2) else round y

/-- Python's `round(x, n)`: round to `n` decimal places, ties to even. -/
noncomputable def pyRound (x : ℝ) (n : ℕ) : ℝ :=
  (roundHalfEven (x * 10 ^ n) : ℝ) / 10 ^ n

/-- Predicate: `x` is an exact multiple of `10^(-n)`. -/
def IsQuantized (n : ℕ) (x : ℝ) : Prop :=
  ∃ m : ℤ, x * 10 ^ n = (m : ℝ)

-- ───────────────────────── Standard normal distribution ─────────────────────
/-- Standard normal density (the distribution behind `scipy.stats.norm`). -/
noncomputable def normPdf (t : ℝ) : ℝ :=
  (Real.sqrt (2 * Real.pi))⁻¹ * Real.exp (-(t ^ 2) / 2)

/-- Standard normal CDF, `scipy.stats.norm.cdf`. -/
noncomputable def normCdf (x : ℝ) : ℝ :=
  ∫ t in Set.Iic x, normPdf t

-- ───────────────────────── src/situational/pricing.py ──────────────────────
/-- Function `gbs_price` from `src/situational/pricing.py`.  `none` models the Python
exceptions raised in the analytic branch: `ZeroDivisionError` when `K = 0`
and `math.log`'s `ValueError` when `S / K ≤ 0`.  The degenerate branches
(`T ≤ 0`, then `sigma ≤ 0`) return the intrinsic value and touch neither
`log` nor any division, so they never fail. -/
noncomputable def gbs_price (option_type : String) (S K T r q sigma : ℝ) :
    Option ℝ :=
  if T ≤ 0 then
    some (max 0 (if option_type = "call" then S - K else K - S))
  else if sigma ≤ 0 then
    some (max 0 (if option_type = "call" then S - K else K - S))
  else if K = 0 then
    none
  else if S / K ≤ 0 then
    none
  else
    let b := r - q
    let sqrt_T := Real.sqrt T
    let d1 := (Real.log (S / K) + (b + 0.5 * sigma ^ 2) * T) / (sigma * sqrt_T)
    let d2 := d1 - sigma * sqrt_T
    if option_type = "call" then
      some (S * Real.exp ((b - r) * T) * normCdf d1
        - K * Real.exp (-r * T) * normCdf d2)
    else
      some (K * Real.exp (-r * T) * normCdf (-d2)
        - S * Real.exp ((b - r) * T) * normCdf (-d1))

-- ───────────────── src/situational/greeks.py : calculate_greeks ─────────────
/-- Return value of `calculate_greeks` (the dict built at the end of the
Python function). -/
structure PositionGreeks where
  delta : ℝ
  gamma : ℝ
  theta_per_day : ℝ
  vega_per_pct : ℝ
  option_price : ℝ
  position_value : ℝ

/-- Function `calculate_greeks` from `src/situational/greeks.py`: central-difference
delta/gamma/vega and forward-difference theta on top of `gbs_price`, with the
Python `round(..., n)` applied to each returned field.  `_MULTIPLIER = 100`.
A `none` from any of the six pricing probes propagates (a Python exception
would abort the call). -/
noncomputable def calculate_greeks (option_type : String) (S K T r q sigma : ℝ)
    (contracts : ℤ) : Option PositionGreeks :=
  let mult : ℝ := (contracts : ℝ) * 100
  let dS : ℝ := max (S * 0.01) 0.01
  let dSigma : ℝ := 0.001
  let dT : ℝ := 1 / 365
  (gbs_price option_type S K T r q sigma).bind fun base =>
  (gbs_price option_type (S + dS) K T r q sigma).bind fun up_s =>
  (gbs_price option_type (S - dS) K T r q sigma).bind fun dn_s =>
  (gbs_price option_type S K T r q (sigma + dSigma)).bind fun up_v =>
  (gbs_price option_type S K T r q (sigma - dSigma)).bind fun dn_v =>
  (gbs_price option_type S K (max (T - dT) 1e-8) r q sigma).bind fun fwd_t =>
  some {
    delta := pyRound ((up_s - dn_s) / (2 * dS)) 4
    gamma := pyRound ((up_s - 2 * base + dn_s) / dS ^ 2) 6
    theta_per_day := pyRound ((fwd_t - base) * mult) 2
    vega_per_pct := pyRound ((up_v - dn_v) / (2 * dSigma) * mult * 0.01) 2
    option_price := pyRound base 4
    position_value := pyRound (base * mult) 2 }

-- ──────────────── src/situational/greeks.py : pnl_decomposition ─────────────
/-- The `inputs` block returned by `pnl_decomposition`. -/
structure PnLInputs where
  price_move : ℝ
  iv_change_pct : ℝ
  days_elapsed : ℤ

/-- The `breakdown` block returned by `pnl_decomposition`. -/
structure PnLBreakdown where
  delta : ℝ
  gamma : ℝ
  theta : ℝ
  vega : ℝ

/-- Return value of `pnl_decomposition`. -/
structure PnLDecomposition where
  inputs : PnLInputs
  breakdown : PnLBreakdown
  total_approx : ℝ
  total_exact : ℝ
  residual : ℝ

/-- Function `pnl_decomposition` from `src/situational/greeks.py`: Taylor attribution
of P&L using the rounded per-position Greeks, against a full reprice at the
moved spot, clamped time `max (T − days/365) 1e-8` and clamped volatility
`max (σ + iv_change) 0.001`. -/
noncomputable def pnl_decomposition (option_type : String) (S K T r q sigma : ℝ)
    (contracts : ℤ) (entry_price price_move iv_change_abs : ℝ)
    (days_elapsed : ℤ) : Option PnLDecomposition :=
  let mult : ℝ := (contracts : ℝ) * 100
  (calculate_greeks option_type S K T r q sigma contracts).bind fun greeks =>
  let T_new := max (T - (days_elapsed : ℝ) / 365) 1e-8
  let sigma_new := max (sigma + iv_change_abs) 0.001
  let S_new := S + price_move
  let delta_pnl := greeks.delta * price_move * mult
  let gamma_pnl := 0.5 * greeks.gamma * price_move ^ 2 * mult
  let theta_pnl := greeks.theta_per_day * (days_elapsed : ℝ)
  let vega_pnl := greeks.vega_per_pct * (iv_change_abs * 100)
  let total_approx := delta_pnl + gamma_pnl + theta_pnl + vega_pnl
  (gbs_price option_type S_new K T_new r q sigma_new).bind fun exact_price =>
  let total_exact := (exact_price - entry_price) * mult
  some {
    inputs := { price_move := pyRound price_move 4
                iv_change_pct := pyRound (iv_change_abs * 100) 2
                days_elapsed := days_elapsed }
    breakdown := { delta := pyRound delta_pnl 2, gamma := pyRound gamma_pnl 2
                   theta := pyRound theta_pnl 2, vega := pyRound vega_pnl 2 }
    total_approx := pyRound total_approx 2
    total_exact := pyRound total_exact 2
    residual := pyRound (total_exact - total_approx) 2 }

-- ──────────── src/situational/greeks.py : aggregate_portfolio_greeks ────────
/-- A portfolio position dict: an equity leg (discriminated in Python by
`position_type == "equity"`) or an option leg.  `ticker`, `beta` and
`expiry` are read with `.get` (optional); all other fields are accessed
with `[]` and are required. -/
inductive Position where
  | equity (ticker : Option String) (shares S : ℝ) (beta : Option ℝ)
  | option (ticker : Option String) (option_type : String) (S K T r q sigma : ℝ)
      (contracts : ℤ) (beta : Option ℝ) (expiry : Option String)

/-- A per-leg detail dict appended to the `positions` list of the
aggregation result. -/
inductive LegDetail where
  | equity (ticker : String) (shares delta gamma theta_per_day vega_per_pct
      bw_delta bw_gamma : ℝ)
  | option (ticker : String) (option_type : String) (strike : ℝ)
      (contracts : ℤ) (delta gamma theta_per_day vega_per_pct
      bw_delta bw_gamma : ℝ)

/-- The `summary` block of the aggregation result. -/
structure Summary where
  beta_weighted_delta : ℝ
  beta_weighted_gamma : ℝ
  total_theta_per_day : ℝ
  total_vega_per_pct : ℝ

/-- Return value of `aggregate_portfolio_greeks`. -/
structure AggResult where
  spy_price_used : ℝ
  summary : Summary
  positions : List LegDetail

/-- Unrounded running totals and detail list of the aggregation loop. -/
structure AggTotals where
  bw_delta : ℝ
  bw_gamma : ℝ
  theta : ℝ
  vega : ℝ
  details : List LegDetail

/-- The `for pos in positions` loop of `aggregate_portfolio_greeks`.
`beta = pos.get("beta", 1.0)` is the Python default; the division by
`spy_price` raises `ZeroDivisionError` (modelled `none`) whenever a leg is
processed with `spy_price = 0`; a failing `calculate_greeks` on an option
leg also propagates as `none`. -/
noncomputable def aggLoop (positions : List Position) (spy_price : ℝ) :
    Option AggTotals :=
  match positions with
  | [] => some { bw_delta := 0, bw_gamma := 0, theta := 0, vega := 0, details := [] }
  | Position.equity ticker shares S beta :: rest =>
    if spy_price = 0 then none else
    (aggLoop rest spy_price).bind fun acc =>
      let b := beta.getD 1
      let bw_delta := shares * S * b / spy_price
      some { bw_delta := bw_delta + acc.bw_delta
             bw_gamma := 0 + acc.bw_gamma
             theta := acc.theta
             vega := acc.vega
             details := LegDetail.equity (ticker.getD "?") shares 1 0 0 0
               (pyRound bw_delta 4) 0 :: acc.details }
  | Position.option ticker ot S K T r q sigma contracts beta _ :: rest =>
    if spy_price = 0 then none else
    (calculate_greeks ot S K T r q sigma contracts).bind fun g =>
    (aggLoop rest spy_price).bind fun acc =>
      let b := beta.getD 1
      let mult : ℝ := (contracts : ℝ) * 100
      let bw_delta := g.delta * S * b / spy_price * mult
      let bw_gamma := g.gamma * S ^ 2 * b ^ 2 / spy_price ^ 2 * mult
      some { bw_delta := bw_delta + acc.bw_delta
             bw_gamma := bw_gamma + acc.bw_gamma
             theta := g.theta_per_day + acc.theta
             vega := g.vega_per_pct + acc.vega
             details := LegDetail.option (ticker.getD "?") ot K contracts
               g.delta g.gamma g.theta_per_day g.vega_per_pct
               (pyRound bw_delta 4) (pyRound bw_gamma 6) :: acc.details }

/-- Function `aggregate_portfolio_greeks` from `src/situational/greeks.py`:
beta-weighted portfolio Greeks, the summary fields being the Python-rounded
unrounded running totals. -/
noncomputable def aggregate_portfolio_greeks (positions : List Position)
    (spy_price : ℝ) : Option AggResult :=
  (aggLoop positions spy_price).map fun acc =>
    { spy_price_used := pyRound spy_price 2
      summary := { beta_weighted_delta := pyRound acc.bw_delta 4
                   beta_weighted_gamma := pyRound acc.bw_gamma 6
                   total_theta_per_day := pyRound acc.theta 2
                   total_vega_per_pct := pyRound acc.vega 2 }
      positions := acc.details }

/-- Replacing an omitted `beta` by an explicit `beta = 1.0`. -/
def fillBeta : Position → Position
  | Position.equity t sh S beta => Position.equity t sh S (some (beta.getD 1))
  | Position.option t ot S K T r q sigma c beta ed =>
      Position.option t ot S K T r q sigma c (some (beta.getD 1)) ed

-- ──────── src/situational/greeks.py : calculate_hypothetical_impact ─────────
/-- The `_diff` helper: per-key difference of two summaries, rounded to 6
decimals. -/
noncomputable def diffSummary (a b : Summary) : Summary :=
  { beta_weighted_delta :=
      pyRound (a.beta_weighted_delta - b.beta_weighted_delta) 6
    beta_weighted_gamma :=
      pyRound (a.beta_weighted_gamma - b.beta_weighted_gamma) 6
    total_theta_per_day :=
      pyRound (a.total_theta_per_day - b.total_theta_per_day) 6
    total_vega_per_pct :=
      pyRound (a.total_vega_per_pct - b.total_vega_per_pct) 6 }

/-- The `new_position` block of the hypothetical-impact result. -/
structure HypoNewPosition where
  ticker : String
  option_type : String
  strike : ℝ
  expiry : String
  contracts : ℤ
  greeks : Option LegDetail

/-- The `portfolio` block of the hypothetical-impact result. -/
structure PortfolioBlock where
  before : Summary
  after : Summary
  change : Summary

/-- Return value of `calculate_hypothetical_impact`. -/
structure HypoResult where
  spy_price_used : ℝ
  new_position : HypoNewPosition
  portfolio : PortfolioBlock

/-- Function `calculate_hypothetical_impact` from `src/situational/greeks.py`:
`before`, `after = aggregate(existing + [new])` and the isolated new leg are
each computed from scratch by `aggregate_portfolio_greeks`; the result block
then reads the option fields of `new_position` (a `KeyError`, modelled
`none`, for an equity dict). -/
noncomputable def calculate_hypothetical_impact
    (existing_positions : List Position) (new_position : Position)
    (spy_price : ℝ) : Option HypoResult :=
  (aggregate_portfolio_greeks existing_positions spy_price).bind fun before =>
  (aggregate_portfolio_greeks (existing_positions ++ [new_position])
    spy_price).bind fun after =>
  (aggregate_portfolio_greeks [new_position] spy_price).bind fun isolated =>
  match new_position with
  | Position.equity _ _ _ _ => none
  | Position.option ticker ot _ K _ _ _ _ contracts _ expiry =>
    some { spy_price_used := pyRound spy_price 2
           new_position := { ticker := ticker.getD "?"
                             option_type := ot
                             strike := K
                             expiry := expiry.getD ""
                             contracts := contracts
                             greeks := isolated.positions.head? }
           portfolio := { before := before.summary
                          after := after.summary
                          change := diffSummary after.summary before.summary } }

theorem IsQuantized.add {n : ℕ} {x y : ℝ} (hx : IsQuantized n x)
    (hy : IsQuantized n y) : IsQuantized n (x + y) := by
  obtain ⟨mx, hmx⟩ := hx
  obtain ⟨my, hmy⟩ := hy
  exact ⟨mx + my, by push_cast; rw [add_mul, hmx, hmy]⟩

theorem roundHalfEven_intCast (m : ℤ) : roundHalfEven (m : ℝ) = m := by
  unfold roundHalfEven
  rw [Int.fract_intCast]
  norm_num

theorem pyRound_of_quantized {n : ℕ} {x : ℝ} (h : IsQuantized n x) :
    pyRound x n = x := by
  obtain ⟨m, hm⟩ := h
  unfold pyRound
  rw [hm, roundHalfEven_intCast, ← hm]
  field_simp

theorem pyRound_quantized (x : ℝ) (n : ℕ) : IsQuantized n (pyRound x n) :=
  ⟨roundHalfEven (x * 10 ^ n), by unfold pyRound; field_simp⟩

theorem pyRound_zero (n : ℕ) : pyRound 0 n = 0 :=
  pyRound_of_quantized ⟨0, by norm_num⟩

/-- Evaluation rule for `pyRound` away from decimal ties: if
`m ≤ x·10^n + 1/2 < m + 1` and `x·10^n` is not exactly `m − 1/2`,
then `pyRound x n = m / 10^n`. -/
theorem pyRound_eval (x : ℝ) (n : ℕ) (m : ℤ)
    (h1 : (m : ℝ) ≤ x * 10 ^ n + 1 / 2)
    (h2 : x * 10 ^ n + 1 / 2 < (m : ℝ) + 1)
    (h3 : x * 10 ^ n ≠ (m : ℝ) - 1 / 2) :
    pyRound x n = (m : ℝ) / 10 ^ n := by
  have hround : round (x * 10 ^ n) = m := by
    rw [round_eq, Int.floor_eq_iff]
    exact ⟨h1, h2⟩
  have hfract : Int.fract (x * 10 ^ n) ≠ 1 / 2 := by
    intro hf
    have hx : x * 10 ^ n = (⌊x * 10 ^ n⌋ : ℝ) + 1 / 2 := by
      have := Int.fract_add_floor (x * 10 ^ n)
      linarith [hf ▸ this]
    have hfl : (⌊x * 10 ^ n⌋ : ℤ) = m - 1 := by
      have hlow : ((m : ℝ) - 1) ≤ (⌊x * 10 ^ n⌋ : ℝ) := by linarith
      have hhigh : (⌊x * 10 ^ n⌋ : ℝ) < (m : ℝ) := by linarith
      have h1' : (m - 1 : ℤ) ≤ ⌊x * 10 ^ n⌋ := by exact_mod_cast (by push_cast; linarith : ((m - 1 : ℤ) : ℝ) ≤ (⌊x * 10 ^ n⌋ : ℝ))
      have h2' : ⌊x * 10 ^ n⌋ < m := by exact_mod_cast hhigh
      omega
    apply h3
    rw [hx, hfl]
    push_cast
    ring
  unfold pyRound roundHalfEven
  rw [if_neg hfract, hround]

theorem integrable_normPdf : Integrable normPdf := by
  have h : Integrable (fun t : ℝ => Real.exp (-(1 / 2) * t ^ 2)) :=
    integrable_exp_neg_mul_sq (by norm_num)
  have h2 : Integrable (fun t : ℝ =>
      (Real.sqrt (2 * Real.pi))⁻¹ * Real.exp (-(1 / 2) * t ^ 2)) :=
    h.const_mul _
  refine h2.congr ?_
  filter_upwards with t
  unfold normPdf
  ring_nf

theorem integral_normPdf : (∫ t : ℝ, normPdf t) = 1 := by
  have h : (∫ t : ℝ, normPdf t)
      = (Real.sqrt (2 * Real.pi))⁻¹ * ∫ t : ℝ, Real.exp (-(1 / 2) * t ^ 2) := by
    rw [← integral_mul_left]
    congr 1
    funext t
    unfold normPdf
    ring_nf
  rw [h, integral_gaussian]
  have h2 : Real.pi / (1 / 2) = 2 * Real.pi := by ring
  rw [h2]
  have hpos : (0 : ℝ) < Real.sqrt (2 * Real.pi) :=
    Real.sqrt_pos.mpr (by positivity)
  field_simp

theorem normPdf_neg (t : ℝ) : normPdf (-t) = normPdf t := by
  unfold normPdf
  ring_nf

/-- Key symmetry of the standard normal CDF: `Φ(x) + Φ(−x) = 1`. -/
theorem normCdf_add_normCdf_neg (x : ℝ) : normCdf x + normCdf (-x) = 1 := by
  have hneg : normCdf (-x) = ∫ t in Set.Ioi x, normPdf t := by
    unfold normCdf
    have h1 : (∫ t in Set.Iic (-x), normPdf t)
        = ∫ t in Set.Iic (-x), normPdf (-t) := by
      refine setIntegral_congr_fun measurableSet_Iic ?_
      intro t _
      simp [normPdf_neg]
    rw [h1, integral_comp_neg_Iic, neg_neg]
  rw [hneg]
  unfold normCdf
  rw [intervalIntegral.integral_Iic_add_Ioi
    integrable_normPdf.integrableOn integrable_normPdf.integrableOn,
    integral_normPdf]

/-- Claim C1. For `option_type ∈ {call, put}`, whenever `T ≤ 0` or `σ ≤ 0`,
`gbs_price` returns (never raises) the intrinsic value: `max 0 (S − K)` for a
call and `max 0 (K − S)` for a put, for all `S`, `K`, `r`, `q`. -/
theorem gbs_price_degenerate_intrinsic (option_type : String)
    (S K T r q sigma : ℝ) (hot : option_type = "call" ∨ option_type = "put")
    (hdeg : T ≤ 0 ∨ sigma ≤ 0) :
    gbs_price option_type S K T r q sigma
      = some (if option_type = "call" then max 0 (S - K) else max 0 (K - S)) := by
  unfold gbs_price
  rcases hdeg with hT | hsig
  · rw [if_pos hT]
    rcases hot with h | h <;> simp [h]
  · by_cases hT : T ≤ 0
    · rw [if_pos hT]
      rcases hot with h | h <;> simp [h]
    · rw [if_neg hT, if_pos hsig]
      rcases hot with h | h <;> simp [h]

/-- Witness for C1 at a concrete degenerate input: a call with
`S = 110`, `K = 100`, `T = 0` prices to its intrinsic value `10`. -/
theorem gbs_price_degenerate_intrinsic_witness :
    gbs_price "call" 110 100 0 0.04 0.01 0.3 = some 10 := by
  have h := gbs_price_degenerate_intrinsic "call" 110 100 0 0.04 0.01 0.3
    (Or.inl rfl) (Or.inl le_rfl)
  rw [h]
  norm_num

/-- Claim C2. Put-call parity: for `S > 0`, `K > 0`, `T > 0`, `σ > 0` and any
`r`, `q` with `b = r − q`, both prices exist and
`call − put = S·e^{(b−r)T} − K·e^{−rT}` holds within `1e-6` (in fact the
difference is exactly zero in real arithmetic). -/
theorem gbs_price_put_call_parity (S K T r q sigma : ℝ)
    (hS : 0 < S) (hK : 0 < K) (hT : 0 < T) (hsig : 0 < sigma) :
    ∃ c p : ℝ, gbs_price "call" S K T r q sigma = some c ∧
      gbs_price "put" S K T r q sigma = some p ∧
      |c - p - (S * Real.exp ((r - q - r) * T) - K * Real.exp (-r * T))|
        ≤ 1e-6 := by
  have hTn : ¬T ≤ 0 := not_le.mpr hT
  have hsign : ¬sigma ≤ 0 := not_le.mpr hsig
  have hKn : ¬(K = 0) := ne_of_gt hK
  have hSK : ¬(S / K ≤ 0) := not_le.mpr (div_pos hS hK)
  unfold gbs_price
  rw [if_neg hTn, if_neg hsign, if_neg hKn, if_neg hSK,
    if_neg hTn, if_neg hsign, if_neg hKn, if_neg hSK]
  simp only [reduceIte, String.reduceEq]
  refine ⟨_, _, rfl, rfl, ?_⟩
  set d1 := (Real.log (S / K) + (r - q + 0.5 * sigma ^ 2) * T)
    / (sigma * Real.sqrt T) with hd1
  set d2 := d1 - sigma * Real.sqrt T with hd2
  have h1 := normCdf_add_normCdf_neg d1
  have h2 := normCdf_add_normCdf_neg d2
  have : S * Real.exp ((r - q - r) * T) * normCdf d1
      - K * Real.exp (-r * T) * normCdf d2
      - (K * Real.exp (-r * T) * normCdf (-d2)
        - S * Real.exp ((r - q - r) * T) * normCdf (-d1))
      - (S * Real.exp ((r - q - r) * T) - K * Real.exp (-r * T)) = 0 := by
    have e1 : normCdf (-d1) = 1 - normCdf d1 := by linarith
    have e2 : normCdf (-d2) = 1 - normCdf d2 := by linarith
    rw [e1, e2]
    ring
  rw [this]
  norm_num

/-- Witness for C2 at `S = K = 100`, `T = 1`, `r = 0.05`, `q = 0.01`,
`σ = 0.2`. -/
theorem gbs_price_put_call_parity_witness :
    ∃ c p : ℝ, gbs_price "call" 100 100 1 0.05 0.01 0.2 = some c ∧
      gbs_price "put" 100 100 1 0.05 0.01 0.2 = some p ∧
      |c - p - (100 * Real.exp ((0.05 - 0.01 - 0.05) * 1)
        - 100 * Real.exp (-0.05 * 1))| ≤ 1e-6 :=
  gbs_price_put_call_parity 100 100 1 0.05 0.01 0.2
    (by norm_num) (by norm_num) (by norm_num) (by norm_num)

-- Helper evaluation rules for the degenerate pricing branches (call side).
theorem gbs_price_call_T_nonpos (S K T r q sigma : ℝ) (h : T ≤ 0) :
    gbs_price "call" S K T r q sigma = some (max 0 (S - K)) := by
  unfold gbs_price
  rw [if_pos h]
  simp

theorem gbs_price_call_sigma_nonpos (S K T r q sigma : ℝ) (hT : ¬T ≤ 0)
    (h : sigma ≤ 0) :
    gbs_price "call" S K T r q sigma = some (max 0 (S - K)) := by
  unfold gbs_price
  rw [if_neg hT, if_pos h]
  simp

/-- Unfolding of `calculate_greeks` as an explicit record, given the six pricing probes. -/
theorem calculate_greeks_eq (option_type : String) (S K T r q sigma : ℝ)
    (contracts : ℤ) (base up_s dn_s up_v dn_v fwd_t : ℝ)
    (h1 : gbs_price option_type S K T r q sigma = some base)
    (h2 : gbs_price option_type (S + max (S * 0.01) 0.01) K T r q sigma
      = some up_s)
    (h3 : gbs_price option_type (S - max (S * 0.01) 0.01) K T r q sigma
      = some dn_s)
    (h4 : gbs_price option_type S K T r q (sigma + 0.001) = some up_v)
    (h5 : gbs_price option_type S K T r q (sigma - 0.001) = some dn_v)
    (h6 : gbs_price option_type S K (max (T - 1 / 365) 1e-8) r q sigma
      = some fwd_t) :
    calculate_greeks option_type S K T r q sigma contracts = some {
      delta := pyRound ((up_s - dn_s) / (2 * max (S * 0.01) 0.01)) 4
      gamma := pyRound ((up_s - 2 * base + dn_s) / (max (S * 0.01) 0.01) ^ 2) 6
      theta_per_day := pyRound ((fwd_t - base) * ((contracts : ℝ) * 100)) 2
      vega_per_pct := pyRound
        ((up_v - dn_v) / (2 * 0.001) * ((contracts : ℝ) * 100) * 0.01) 2
      option_price := pyRound base 4
      position_value := pyRound (base * ((contracts : ℝ) * 100)) 2 } := by
  unfold calculate_greeks
  simp only [h1, h2, h3, h4, h5, h6, Option.some_bind]

/-- Concrete evaluation: a slightly in-the-money call through the degenerate
branches (`T = 0`, `σ = 0`), 3 contracts.  Intrinsic value is `0.00004`. -/
theorem calculate_greeks_eval_itm :
    calculate_greeks "call" 1 0.99996 0 0 0 0 3
      = some { delta := 0.502, gamma := 99.6, theta_per_day := 0,
               vega_per_pct := 0, option_price := 0, position_value := 0.01 } := by
  have hdS : max ((1 : ℝ) * 0.01) 0.01 = 0.01 := by norm_num
  have h1 : gbs_price "call" 1 0.99996 0 0 0 0 = some 0.00004 := by
    rw [gbs_price_call_T_nonpos _ _ _ _ _ _ le_rfl]
    norm_num [max_def]
  have h2 : gbs_price "call" (1 + max ((1 : ℝ) * 0.01) 0.01) 0.99996 0 0 0 0
      = some 0.01004 := by
    rw [gbs_price_call_T_nonpos _ _ _ _ _ _ le_rfl]
    rw [hdS]
    norm_num [max_def]
  have h3 : gbs_price "call" (1 - max ((1 : ℝ) * 0.01) 0.01) 0.99996 0 0 0 0
      = some 0 := by
    rw [gbs_price_call_T_nonpos _ _ _ _ _ _ le_rfl]
    rw [hdS]
    norm_num [max_def]
  have h4 : gbs_price "call" 1 0.99996 0 0 0 ((0 : ℝ) + 0.001)
      = some 0.00004 := by
    rw [gbs_price_call_T_nonpos _ _ _ _ _ _ le_rfl]
    norm_num [max_def]
  have h5 : gbs_price "call" 1 0.99996 0 0 0 ((0 : ℝ) - 0.001)
      = some 0.00004 := by
    rw [gbs_price_call_T_nonpos _ _ _ _ _ _ le_rfl]
    norm_num [max_def]
  have h6 : gbs_price "call" 1 0.99996 (max ((0 : ℝ) - 1 / 365) 1e-8) 0 0 0
      = some 0.00004 := by
    have hmax : max ((0 : ℝ) - 1 / 365) 1e-8 = 1e-8 := by
      rw [max_eq_right]
      norm_num
    rw [hmax, gbs_price_call_sigma_nonpos _ _ _ _ _ _ (by norm_num) le_rfl]
    norm_num [max_def]
  rw [calculate_greeks_eq "call" 1 0.99996 0 0 0 0 3 _ _ _ _ _ _ h1 h2 h3 h4 h5 h6]
  rw [hdS]
  congr 1
  have hdelta : ((0.01004 : ℝ) - 0) / (2 * 0.01) = 0.502 := by norm_num
  have hgamma : ((0.01004 : ℝ) - 2 * 0.00004 + 0) / (0.01 : ℝ) ^ 2 = 99.6 := by
    norm_num
  have htheta : ((0.00004 : ℝ) - 0.00004) * ((3 : ℤ) * 100 : ℝ) = 0 := by
    norm_num
  have hvega : ((0.00004 : ℝ) - 0.00004) / (2 * 0.001) * ((3 : ℤ) * 100 : ℝ)
      * 0.01 = 0 := by norm_num
  have hpv : (0.00004 : ℝ) * ((3 : ℤ) * 100 : ℝ) = 0.012 := by norm_num
  rw [hdelta, hgamma, htheta, hvega, hpv]
  rw [pyRound_of_quantized ⟨5020, by norm_num⟩,
    pyRound_of_quantized ⟨99600000, by norm_num⟩, pyRound_zero,
    pyRound_eval 0.00004 4 0 (by norm_num) (by norm_num) (by norm_num),
    pyRound_eval 0.012 2 1 (by norm_num) (by norm_num) (by norm_num)]
  norm_num [PositionGreeks.mk.injEq]

/-- Claim C6. `calculate_greeks` computes theta as a forward difference only:
`theta_per_day = round₂([price at clamped T−1/365] − price(T)) × contracts ×
100)`, where the perturbed time is `max (T − 1/365) 1e-8`, i.e. the time is
floored at `1e-8` in the subtraction so the time handed to the pricing
function is never negative (it is strictly positive); no central difference
in time appears. -/
theorem calculate_greeks_theta_forward_difference
    (option_type : String) (S K T r q sigma : ℝ) (contracts : ℤ)
    (g : PositionGreeks)
    (hg : calculate_greeks option_type S K T r q sigma contracts = some g) :
    ∃ base fwd_t : ℝ,
      gbs_price option_type S K T r q sigma = some base ∧
      gbs_price option_type S K (max (T - 1 / 365) 1e-8) r q sigma
        = some fwd_t ∧
      g.theta_per_day = pyRound ((fwd_t - base) * ((contracts : ℝ) * 100)) 2 ∧
      (0 : ℝ) < max (T - 1 / 365) 1e-8 := by
  simp only [calculate_greeks, Option.bind_eq_some, Option.some.injEq] at hg
  obtain ⟨base, h1, up_s, h2, dn_s, h3, up_v, h4, dn_v, h5, fwd_t, h6, heq⟩ := hg
  refine ⟨base, fwd_t, h1, h6, ?_, ?_⟩
  · rw [← heq]
  · exact lt_of_lt_of_le (by norm_num) (le_max_right _ _)

/-- Witness for C6 at the concrete degenerate call position. -/
theorem calculate_greeks_theta_forward_difference_witness :
    ∃ base fwd_t : ℝ,
      gbs_price "call" 1 0.99996 0 0 0 0 = some base ∧
      gbs_price "call" 1 0.99996 (max ((0 : ℝ) - 1 / 365) 1e-8) 0 0 0
        = some fwd_t ∧
      PositionGreeks.theta_per_day
        { delta := 0.502, gamma := 99.6, theta_per_day := 0,
          vega_per_pct := 0, option_price := 0, position_value := 0.01 }
        = pyRound ((fwd_t - base) * (((3 : ℤ) : ℝ) * 100)) 2 ∧
      (0 : ℝ) < max ((0 : ℝ) - 1 / 365) 1e-8 :=
  calculate_greeks_theta_forward_difference "call" 1 0.99996 0 0 0 0 3 _
    calculate_greeks_eval_itm

/-- Claim C9, counterexample. At the concrete position
`call, S = 1, K = 0.99996, T = 0, σ = 0, contracts = 3` the returned
`position_value` is `0.01` while the returned `option_price × contracts ×
100` is `0 × 300 = 0`: the two rounded fields do not satisfy the claimed
identity. -/
theorem calculate_greeks_position_value_counterexample :
    calculate_greeks "call" 1 0.99996 0 0 0 0 3
      = some { delta := 0.502, gamma := 99.6, theta_per_day := 0,
               vega_per_pct := 0, option_price := 0, position_value := 0.01 } ∧
    (0.01 : ℝ) ≠ 0 * (((3 : ℤ) : ℝ) * 100) :=
  ⟨calculate_greeks_eval_itm, by norm_num⟩

/-- Claim C9, amended. `position_value` equals the *unrounded* theoretical
price × contracts × 100, rounded to 2 decimals, while `option_price` is the
same unrounded price rounded to 4 decimals; the claimed identity
`position_value = option_price × contracts × 100` therefore holds only up to
these two independent roundings. -/
theorem calculate_greeks_position_value
    (option_type : String) (S K T r q sigma : ℝ) (contracts : ℤ)
    (g : PositionGreeks)
    (hg : calculate_greeks option_type S K T r q sigma contracts = some g) :
    ∃ base : ℝ,
      gbs_price option_type S K T r q sigma = some base ∧
      g.option_price = pyRound base 4 ∧
      g.position_value = pyRound (base * ((contracts : ℝ) * 100)) 2 := by
  simp only [calculate_greeks, Option.bind_eq_some, Option.some.injEq] at hg
  obtain ⟨base, h1, up_s, h2, dn_s, h3, up_v, h4, dn_v, h5, fwd_t, h6, heq⟩ := hg
  exact ⟨base, h1, by rw [← heq], by rw [← heq]⟩

/-- Witness for the amended C9 at the concrete degenerate call position. -/
theorem calculate_greeks_position_value_witness :
    ∃ base : ℝ,
      gbs_price "call" 1 0.99996 0 0 0 0 = some base ∧
      PositionGreeks.option_price
        { delta := 0.502, gamma := 99.6, theta_per_day := 0,
          vega_per_pct := 0, option_price := 0, position_value := 0.01 }
        = pyRound base 4 ∧
      PositionGreeks.position_value
        { delta := 0.502, gamma := 99.6, theta_per_day := 0,
          vega_per_pct := 0, option_price := 0, position_value := 0.01 }
        = pyRound (base * (((3 : ℤ) : ℝ) * 100)) 2 :=
  calculate_greeks_position_value "call" 1 0.99996 0 0 0 0 3 _
    calculate_greeks_eval_itm

/-- Unfolding of `pnl_decomposition` as an explicit record, given the Greeks
and the reprice at the code's clamped time `max (T − days/365) 1e-8` and
volatility `max (σ + iv_change) 0.001`. -/
theorem pnl_decomposition_eq (option_type : String) (S K T r q sigma : ℝ)
    (contracts : ℤ) (entry_price price_move iv_change_abs : ℝ)
    (days_elapsed : ℤ) (g : PositionGreeks) (pr : ℝ)
    (hg : calculate_greeks option_type S K T r q sigma contracts = some g)
    (hpr : gbs_price option_type (S + price_move) K
      (max (T - (days_elapsed : ℝ) / 365) 1e-8) r q
      (max (sigma + iv_change_abs) 0.001) = some pr) :
    pnl_decomposition option_type S K T r q sigma contracts entry_price
      price_move iv_change_abs days_elapsed = some { inputs := { price_move := pyRound price_move 4, iv_change_pct := pyRound (iv_change_abs * 100) 2, days_elapsed := days_elapsed }, breakdown := { delta := pyRound (g.delta * price_move * ((contracts : ℝ) * 100)) 2, gamma := pyRound (0.5 * g.gamma * price_move ^ 2 * ((contracts : ℝ) * 100)) 2, theta := pyRound (g.theta_per_day * (days_elapsed : ℝ)) 2, vega := pyRound (g.vega_per_pct * (iv_change_abs * 100)) 2 }, total_approx := pyRound (g.delta * price_move * ((contracts : ℝ) * 100) + 0.5 * g.gamma * price_move ^ 2 * ((contracts : ℝ) * 100) + g.theta_per_day * (days_elapsed : ℝ) + g.vega_per_pct * (iv_change_abs * 100)) 2, total_exact := pyRound ((pr - entry_price) * ((contracts : ℝ) * 100)) 2, residual := pyRound ((pr - entry_price) * ((contracts : ℝ) * 100) - (g.delta * price_move * ((contracts : ℝ) * 100) + 0.5 * g.gamma * price_move ^ 2 * ((contracts : ℝ) * 100) + g.theta_per_day * (days_elapsed : ℝ) + g.vega_per_pct * (iv_change_abs * 100))) 2 } := by
  unfold pnl_decomposition
  simp only [hg, hpr, Option.some_bind]

/-- Claim C7, amended.  For every position and every scenario,
`pnl_decomposition` reprices at the *clamped* time `max (T − days/365) 1e-8`
and volatility `max (σ + iv_change) 0.001` (not at the raw `T − days/365`
and `σ + iv_change`), and every returned total is rounded to 2 decimals:
`total_exact = round₂((clamped reprice − entry) × contracts × 100)`,
`total_approx = round₂(delta + gamma + theta + vega terms)` and
`residual = round₂(exact − approx)` on the same unrounded totals
(whenever the Greeks and the reprice succeed; otherwise the Python call
raises). -/
theorem pnl_decomposition_totals (option_type : String) (S K T r q sigma : ℝ)
    (contracts : ℤ) (entry_price price_move iv_change_abs : ℝ)
    (days_elapsed : ℤ)
    (hg : (calculate_greeks option_type S K T r q sigma contracts).isSome)
    (hpr : (gbs_price option_type (S + price_move) K
      (max (T - (days_elapsed : ℝ) / 365) 1e-8) r q
      (max (sigma + iv_change_abs) 0.001)).isSome) :
    ∃ res g pr,
      calculate_greeks option_type S K T r q sigma contracts = some g ∧
      gbs_price option_type (S + price_move) K
        (max (T - (days_elapsed : ℝ) / 365) 1e-8) r q
        (max (sigma + iv_change_abs) 0.001) = some pr ∧
      pnl_decomposition option_type S K T r q sigma contracts entry_price
        price_move iv_change_abs days_elapsed = some res ∧
      res.total_exact
        = pyRound ((pr - entry_price) * ((contracts : ℝ) * 100)) 2 ∧
      res.total_approx
        = pyRound (g.delta * price_move * ((contracts : ℝ) * 100)
          + 0.5 * g.gamma * price_move ^ 2 * ((contracts : ℝ) * 100)
          + g.theta_per_day * (days_elapsed : ℝ)
          + g.vega_per_pct * (iv_change_abs * 100)) 2 ∧
      res.residual
        = pyRound ((pr - entry_price) * ((contracts : ℝ) * 100)
          - (g.delta * price_move * ((contracts : ℝ) * 100)
            + 0.5 * g.gamma * price_move ^ 2 * ((contracts : ℝ) * 100)
            + g.theta_per_day * (days_elapsed : ℝ)
            + g.vega_per_pct * (iv_change_abs * 100))) 2 := by
  obtain ⟨g, hgeq⟩ := Option.isSome_iff_exists.mp hg
  obtain ⟨pr, hpreq⟩ := Option.isSome_iff_exists.mp hpr
  refine ⟨{ inputs := { price_move := pyRound price_move 4, iv_change_pct := pyRound (iv_change_abs * 100) 2, days_elapsed := days_elapsed }, breakdown := { delta := pyRound (g.delta * price_move * ((contracts : ℝ) * 100)) 2, gamma := pyRound (0.5 * g.gamma * price_move ^ 2 * ((contracts : ℝ) * 100)) 2, theta := pyRound (g.theta_per_day * (days_elapsed : ℝ)) 2, vega := pyRound (g.vega_per_pct * (iv_change_abs * 100)) 2 }, total_approx := pyRound (g.delta * price_move * ((contracts : ℝ) * 100) + 0.5 * g.gamma * price_move ^ 2 * ((contracts : ℝ) * 100) + g.theta_per_day * (days_elapsed : ℝ) + g.vega_per_pct * (iv_change_abs * 100)) 2, total_exact := pyRound ((pr - entry_price) * ((contracts : ℝ) * 100)) 2, residual := pyRound ((pr - entry_price) * ((contracts : ℝ) * 100) - (g.delta * price_move * ((contracts : ℝ) * 100) + 0.5 * g.gamma * price_move ^ 2 * ((contracts : ℝ) * 100) + g.theta_per_day * (days_elapsed : ℝ) + g.vega_per_pct * (iv_change_abs * 100))) 2 }, g, pr, hgeq, hpreq, ?_, rfl, rfl, rfl⟩
  exact pnl_decomposition_eq option_type S K T r q sigma contracts entry_price
    price_move iv_change_abs days_elapsed g pr hgeq hpreq

/-- Concrete evaluation: a deep in-the-money call with `T = 1`, `σ = −1`;
every pricing probe lands in a degenerate branch, intrinsic value `10`. -/
theorem calculate_greeks_eval_deg :
    calculate_greeks "call" 110 100 1 0 0 (-1) 1
      = some { delta := 1, gamma := 0, theta_per_day := 0,
               vega_per_pct := 0, option_price := 10, position_value := 1000 } := by
  have hdS : max ((110 : ℝ) * 0.01) 0.01 = 1.1 := by norm_num [max_def]
  have hT : ¬(1 : ℝ) ≤ 0 := by norm_num
  have h1 : gbs_price "call" 110 100 1 0 0 (-1) = some 10 := by
    rw [gbs_price_call_sigma_nonpos _ _ _ _ _ _ hT (by norm_num)]
    norm_num [max_def]
  have h2 : gbs_price "call" (110 + max ((110 : ℝ) * 0.01) 0.01) 100 1 0 0 (-1)
      = some 11.1 := by
    rw [gbs_price_call_sigma_nonpos _ _ _ _ _ _ hT (by norm_num)]
    rw [hdS]
    norm_num [max_def]
  have h3 : gbs_price "call" (110 - max ((110 : ℝ) * 0.01) 0.01) 100 1 0 0 (-1)
      = some 8.9 := by
    rw [gbs_price_call_sigma_nonpos _ _ _ _ _ _ hT (by norm_num)]
    rw [hdS]
    norm_num [max_def]
  have h4 : gbs_price "call" 110 100 1 0 0 ((-1 : ℝ) + 0.001) = some 10 := by
    rw [gbs_price_call_sigma_nonpos _ _ _ _ _ _ hT (by norm_num)]
    norm_num [max_def]
  have h5 : gbs_price "call" 110 100 1 0 0 ((-1 : ℝ) - 0.001) = some 10 := by
    rw [gbs_price_call_sigma_nonpos _ _ _ _ _ _ hT (by norm_num)]
    norm_num [max_def]
  have h6 : gbs_price "call" 110 100 (max ((1 : ℝ) - 1 / 365) 1e-8) 0 0 (-1)
      = some 10 := by
    have hm : max ((1 : ℝ) - 1 / 365) 1e-8 = 1 - 1 / 365 := by
      rw [max_eq_left]
      norm_num
    rw [hm, gbs_price_call_sigma_nonpos _ _ _ _ _ _ (by norm_num) (by norm_num)]
    norm_num [max_def]
  rw [calculate_greeks_eq "call" 110 100 1 0 0 (-1) 1 _ _ _ _ _ _
    h1 h2 h3 h4 h5 h6]
  rw [hdS]
  congr 1
  have hdelta : ((11.1 : ℝ) - 8.9) / (2 * 1.1) = 1 := by norm_num
  have hgamma : ((11.1 : ℝ) - 2 * 10 + 8.9) / (1.1 : ℝ) ^ 2 = 0 := by norm_num
  have htheta : ((10 : ℝ) - 10) * ((1 : ℤ) * 100 : ℝ) = 0 := by norm_num
  have hvega : ((10 : ℝ) - 10) / (2 * 0.001) * ((1 : ℤ) * 100 : ℝ) * 0.01
      = 0 := by norm_num
  have hpv : (10 : ℝ) * ((1 : ℤ) * 100 : ℝ) = 1000 := by norm_num
  rw [hdelta, hgamma, htheta, hvega, hpv]
  rw [pyRound_of_quantized ⟨10000, by norm_num⟩, pyRound_zero, pyRound_zero,
    pyRound_of_quantized ⟨100000, by norm_num⟩,
    pyRound_of_quantized ⟨100000, by norm_num⟩]

/-- Witness for the amended C7: deep ITM call, `σ = −1`, IV shocked up by
`1.001`, no price move, no elapsed time. -/
theorem pnl_decomposition_totals_witness :
    ∃ res g pr,
      calculate_greeks "call" 110 100 1 0 0 (-1) 1 = some g ∧
      gbs_price "call" ((110 : ℝ) + 0) 100
        (max ((1 : ℝ) - ((0 : ℤ) : ℝ) / 365) 1e-8) 0 0
        (max ((-1 : ℝ) + 1.001) 0.001) = some pr ∧
      pnl_decomposition "call" 110 100 1 0 0 (-1) 1 10 0 1.001 0 = some res ∧
      res.total_exact = pyRound ((pr - 10) * (((1 : ℤ) : ℝ) * 100)) 2 ∧
      res.total_approx
        = pyRound (g.delta * 0 * (((1 : ℤ) : ℝ) * 100)
          + 0.5 * g.gamma * (0 : ℝ) ^ 2 * (((1 : ℤ) : ℝ) * 100)
          + g.theta_per_day * ((0 : ℤ) : ℝ)
          + g.vega_per_pct * (1.001 * 100)) 2 ∧
      res.residual
        = pyRound ((pr - 10) * (((1 : ℤ) : ℝ) * 100)
          - (g.delta * 0 * (((1 : ℤ) : ℝ) * 100)
            + 0.5 * g.gamma * (0 : ℝ) ^ 2 * (((1 : ℤ) : ℝ) * 100)
            + g.theta_per_day * ((0 : ℤ) : ℝ)
            + g.vega_per_pct * (1.001 * 100))) 2 := by
  refine pnl_decomposition_totals "call" 110 100 1 0 0 (-1) 1 10 0 1.001 0
    ?_ ?_
  · rw [calculate_greeks_eval_deg]
    rfl
  · rw [show max ((1 : ℝ) - ((0 : ℤ) : ℝ) / 365) 1e-8 = 1 by
        rw [show ((1 : ℝ) - ((0 : ℤ) : ℝ) / 365) = 1 by norm_num]
        exact max_eq_left (by norm_num),
      show max ((-1 : ℝ) + 1.001) 0.001 = 0.001 by
        rw [show ((-1 : ℝ) + 1.001) = 0.001 by norm_num]
        exact max_self 0.001,
      show ((110 : ℝ) + 0) = 110 by norm_num]
    unfold gbs_price
    rw [if_neg (by norm_num), if_neg (by norm_num), if_neg (by norm_num),
      if_neg (by norm_num)]
    simp only [reduceIte, String.reduceEq]
    rfl

/-- Claim C7, counterexample.  At `call, S = 110, K = 100, T = 1, r = q = 0,
σ = −1, contracts = 1, entry_price = 0.00003, price_move = 0,
iv_change_abs = 0.5, days_elapsed = 0` the claim's formula reprices at the
*unclamped* volatility `σ + iv_change = −0.5 ≤ 0`, i.e. at the intrinsic
value `10`, so the claimed `total_exact` is `(10 − 0.00003) × 100 = 999.997`;
the code reprices at the clamped volatility `0.001` and rounds the returned
total to 2 decimals, so the returned `total_exact` is an exact multiple of
`0.01` and cannot equal `999.997`. -/
theorem pnl_decomposition_totals_counterexample :
    ∃ res : PnLDecomposition, ∃ claimPrice : ℝ,
      pnl_decomposition "call" 110 100 1 0 0 (-1) 1 0.00003 0 0.5 0
        = some res ∧
      gbs_price "call" ((110 : ℝ) + 0) 100 ((1 : ℝ) - ((0 : ℤ) : ℝ) / 365)
        0 0 ((-1 : ℝ) + 0.5) = some claimPrice ∧
      res.total_exact
        ≠ (claimPrice - 0.00003) * (((1 : ℤ) : ℝ) * 100) := by
  have hclaim : gbs_price "call" ((110 : ℝ) + 0) 100
      ((1 : ℝ) - ((0 : ℤ) : ℝ) / 365) 0 0 ((-1 : ℝ) + 0.5) = some 10 := by
    rw [show ((110 : ℝ) + 0) = 110 by norm_num,
      show ((1 : ℝ) - ((0 : ℤ) : ℝ) / 365) = 1 by norm_num,
      show ((-1 : ℝ) + 0.5) = (-0.5 : ℝ) by norm_num]
    rw [gbs_price_call_sigma_nonpos _ _ _ _ _ _ (by norm_num) (by norm_num)]
    norm_num [max_def]
  have hprS : (gbs_price "call" ((110 : ℝ) + 0) 100
      (max ((1 : ℝ) - ((0 : ℤ) : ℝ) / 365) 1e-8) 0 0
      (max ((-1 : ℝ) + 0.5) 0.001)).isSome := by
    rw [show ((110 : ℝ) + 0) = 110 by norm_num,
      show max ((1 : ℝ) - ((0 : ℤ) : ℝ) / 365) 1e-8 = 1 by
        rw [show ((1 : ℝ) - ((0 : ℤ) : ℝ) / 365) = 1 by norm_num]
        exact max_eq_left (by norm_num),
      show max ((-1 : ℝ) + 0.5) 0.001 = 0.001 by
        rw [show ((-1 : ℝ) + 0.5) = (-0.5 : ℝ) by norm_num]
        exact max_eq_right (by norm_num)]
    unfold gbs_price
    rw [if_neg (by norm_num), if_neg (by norm_num), if_neg (by norm_num),
      if_neg (by norm_num)]
    simp only [reduceIte, String.reduceEq]
    rfl
  obtain ⟨pr, hpr⟩ := Option.isSome_iff_exists.mp hprS
  have hres := pnl_decomposition_eq "call" 110 100 1 0 0 (-1) 1 0.00003 0 0.5 0
    _ pr calculate_greeks_eval_deg hpr
  refine ⟨_, 10, hres, hclaim, ?_⟩
  show pyRound ((pr - 0.00003) * (((1 : ℤ) : ℝ) * 100)) 2
    ≠ ((10 : ℝ) - 0.00003) * (((1 : ℤ) : ℝ) * 100)
  intro heq
  obtain ⟨m, hm⟩ :=
    pyRound_quantized ((pr - 0.00003) * (((1 : ℤ) : ℝ) * 100)) 2
  rw [heq] at hm
  have hm10 : ((10 * m : ℤ) : ℝ) = 999997 := by
    push_cast
    push_cast at hm
    linarith
  have h10 : (10 * m : ℤ) = 999997 := by exact_mod_cast hm10
  omega

theorem aggLoop_append_some {A B : List Position} {spy : ℝ} {a b : AggTotals}
    (ha : aggLoop A spy = some a) (hb : aggLoop B spy = some b) :
    aggLoop (A ++ B) spy = some
      { bw_delta := a.bw_delta + b.bw_delta
        bw_gamma := a.bw_gamma + b.bw_gamma
        theta := a.theta + b.theta
        vega := a.vega + b.vega
        details := a.details ++ b.details } := by
  induction A generalizing a with
  | nil =>
    simp only [aggLoop, Option.some.injEq] at ha
    rw [← ha]
    simpa using hb
  | cons p A' ih =>
    by_cases hspy : spy = 0
    · cases p <;> simp [aggLoop, hspy] at ha
    · cases p with
      | equity t sh S beta =>
        simp only [aggLoop, if_neg hspy, Option.bind_eq_some,
          Option.some.injEq] at ha
        obtain ⟨acc, hacc, heq⟩ := ha
        rw [List.cons_append]
        simp only [aggLoop, if_neg hspy, Option.bind_eq_some,
          Option.some.injEq]
        refine ⟨_, ih hacc, ?_⟩
        rw [← heq]
        simp [add_assoc]
      | option t ot S K T r q sigma c beta ed =>
        simp only [aggLoop, if_neg hspy, Option.bind_eq_some,
          Option.some.injEq] at ha
        obtain ⟨g, hgsome, acc, hacc, heq⟩ := ha
        rw [List.cons_append]
        simp only [aggLoop, if_neg hspy, Option.bind_eq_some,
          Option.some.injEq]
        refine ⟨g, hgsome, _, ih hacc, ?_⟩
        rw [← heq]
        simp [add_assoc]

theorem aggLoop_append_isSome {A B : List Position} {spy : ℝ}
    (h : (aggLoop (A ++ B) spy).isSome) :
    (aggLoop A spy).isSome ∧ (aggLoop B spy).isSome := by
  induction A with
  | nil => exact ⟨rfl, h⟩
  | cons p A' ih =>
    by_cases hspy : spy = 0
    · exfalso
      rw [List.cons_append] at h
      cases p <;> simp [aggLoop, hspy] at h
    · rw [List.cons_append] at h
      obtain ⟨x, hx⟩ := Option.isSome_iff_exists.mp h
      cases p with
      | equity t sh S beta =>
        simp only [aggLoop, if_neg hspy, Option.bind_eq_some] at hx
        obtain ⟨acc, hacc, _⟩ := hx
        have hrec := ih (by rw [hacc]; rfl)
        obtain ⟨a', ha'⟩ := Option.isSome_iff_exists.mp hrec.1
        refine ⟨?_, hrec.2⟩
        rw [aggLoop, if_neg hspy, ha', Option.some_bind]
        rfl
      | option t ot S K T r q sigma c beta ed =>
        simp only [aggLoop, if_neg hspy, Option.bind_eq_some] at hx
        obtain ⟨g, hgsome, acc, hacc, _⟩ := hx
        have hrec := ih (by rw [hacc]; rfl)
        obtain ⟨a', ha'⟩ := Option.isSome_iff_exists.mp hrec.1
        refine ⟨?_, hrec.2⟩
        rw [aggLoop, if_neg hspy, hgsome, Option.some_bind, ha',
          Option.some_bind]
        rfl

/-- Claim C10. On the empty position list the aggregator returns (never
raises) for every `spy_price`, including zero and negative values, with all
four summary fields exactly `0` and an empty per-leg detail list. -/
theorem aggregate_portfolio_greeks_empty (spy : ℝ) :
    ∃ res : AggResult, aggregate_portfolio_greeks [] spy = some res ∧
      res.summary.beta_weighted_delta = 0 ∧
      res.summary.beta_weighted_gamma = 0 ∧
      res.summary.total_theta_per_day = 0 ∧
      res.summary.total_vega_per_pct = 0 ∧
      res.positions = [] := by
  refine ⟨{ spy_price_used := pyRound spy 2
            summary := { beta_weighted_delta := 0, beta_weighted_gamma := 0
                         total_theta_per_day := 0, total_vega_per_pct := 0 }
            positions := [] }, ?_, rfl, rfl, rfl, rfl, rfl⟩
  unfold aggregate_portfolio_greeks aggLoop
  simp [pyRound_zero]

/-- Claim C5, the code evaluated at the failing input. With a single equity leg and
`spy_price = −100` the aggregator does *not* fail fast: it silently returns
a summary computed from the negative SPY price
(`beta_weighted_delta = 100·50·1/(−100) = −50`). -/
theorem aggregate_portfolio_greeks_negative_spy :
    aggregate_portfolio_greeks
        [Position.equity (some "XYZ") 100 50 (some 1)] (-100)
      = some { spy_price_used := -100
               summary := { beta_weighted_delta := -50
                            beta_weighted_gamma := 0
                            total_theta_per_day := 0
                            total_vega_per_pct := 0 }
               positions := [LegDetail.equity "XYZ" 100 1 0 0 0 (-50) 0] } := by
  have hq50 : pyRound (-50 : ℝ) 4 = -50 :=
    pyRound_of_quantized ⟨-500000, by norm_num⟩
  have hloop : aggLoop [Position.equity (some "XYZ") 100 50 (some 1)] (-100)
      = some { bw_delta := -50, bw_gamma := 0, theta := 0, vega := 0
               details := [LegDetail.equity "XYZ" 100 1 0 0 0 (-50) 0] } := by
    have hbw : (100 : ℝ) * 50 * 1 / (-100) = -50 := by norm_num
    simp only [aggLoop, if_neg (by norm_num : ¬(-100 : ℝ) = 0),
      Option.some_bind, Option.getD_some, hbw, hq50]
    norm_num
  unfold aggregate_portfolio_greeks
  rw [hloop]
  simp only [Option.map_some']
  rw [pyRound_of_quantized (⟨-10000, by norm_num⟩ : IsQuantized 2 (-100 : ℝ)),
    pyRound_of_quantized (⟨-500000, by norm_num⟩ : IsQuantized 4 (-50 : ℝ)),
    pyRound_zero, pyRound_zero]

/-- Claim C8, counterexample. A leg that omits `beta` is not rejected: the
aggregator substitutes the default `1.0` itself and returns the summary
computed with it (`100·50·1/500 = 10`). -/
theorem aggregate_portfolio_greeks_beta_default_counterexample :
    aggregate_portfolio_greeks [Position.equity (some "ABC") 100 50 none] 500
      = some { spy_price_used := 500
               summary := { beta_weighted_delta := 10
                            beta_weighted_gamma := 0
                            total_theta_per_day := 0
                            total_vega_per_pct := 0 }
               positions := [LegDetail.equity "ABC" 100 1 0 0 0 10 0] } := by
  have hq10 : pyRound (10 : ℝ) 4 = 10 :=
    pyRound_of_quantized ⟨100000, by norm_num⟩
  have hloop : aggLoop [Position.equity (some "ABC") 100 50 none] 500
      = some { bw_delta := 10, bw_gamma := 0, theta := 0, vega := 0
               details := [LegDetail.equity "ABC" 100 1 0 0 0 10 0] } := by
    have hbw : (100 : ℝ) * 50 * 1 / 500 = 10 := by norm_num
    simp only [aggLoop, if_neg (by norm_num : ¬(500 : ℝ) = 0),
      Option.some_bind, Option.getD_none, hbw, hq10]
    norm_num
  unfold aggregate_portfolio_greeks
  rw [hloop]
  simp only [Option.map_some']
  rw [pyRound_of_quantized (⟨50000, by norm_num⟩ : IsQuantized 2 (500 : ℝ)),
    pyRound_of_quantized (⟨100000, by norm_num⟩ : IsQuantized 4 (10 : ℝ)),
    pyRound_zero, pyRound_zero]

/-- Claim C8, amended. For a leg that omits the `beta` field the aggregator
itself substitutes the default value `1.0` (it performs no fetching):
aggregation is unchanged when every omitted beta is replaced by an explicit
`1.0`. -/
theorem aggregate_portfolio_greeks_beta_default (positions : List Position)
    (spy : ℝ) :
    aggregate_portfolio_greeks (positions.map fillBeta) spy
      = aggregate_portfolio_greeks positions spy := by
  suffices h : aggLoop (positions.map fillBeta) spy = aggLoop positions spy by
    unfold aggregate_portfolio_greeks
    rw [h]
  induction positions with
  | nil => rfl
  | cons p rest ih =>
    cases p with
    | equity t sh S beta =>
      simp only [List.map_cons, aggLoop, fillBeta, ih, Option.getD_some]
    | option t ot S K T r q sigma c beta ed =>
      simp only [List.map_cons, aggLoop, fillBeta, ih, Option.getD_some]

/-- The rounded per-leg `theta_per_day` and `vega_per_pct` are exact
multiples of `0.01`. -/
theorem calculate_greeks_theta_vega_quantized {ot : String}
    {S K T r q sigma : ℝ} {c : ℤ} {g : PositionGreeks}
    (h : calculate_greeks ot S K T r q sigma c = some g) :
    IsQuantized 2 g.theta_per_day ∧ IsQuantized 2 g.vega_per_pct := by
  simp only [calculate_greeks, Option.bind_eq_some, Option.some.injEq] at h
  obtain ⟨base, -, up_s, -, dn_s, -, up_v, -, dn_v, -, fwd_t, -, heq⟩ := h
  rw [← heq]
  exact ⟨pyRound_quantized _ 2, pyRound_quantized _ 2⟩

/-- The unrounded theta/vega running totals are exact multiples of `0.01`. -/
theorem aggLoop_theta_vega_quantized {positions : List Position} {spy : ℝ}
    {acc : AggTotals} (h : aggLoop positions spy = some acc) :
    IsQuantized 2 acc.theta ∧ IsQuantized 2 acc.vega := by
  induction positions generalizing acc with
  | nil =>
    simp only [aggLoop, Option.some.injEq] at h
    rw [← h]
    exact ⟨⟨0, by norm_num⟩, ⟨0, by norm_num⟩⟩
  | cons p rest ih =>
    by_cases hspy : spy = 0
    · cases p <;> simp [aggLoop, hspy] at h
    · cases p with
      | equity t sh S beta =>
        simp only [aggLoop, if_neg hspy, Option.bind_eq_some,
          Option.some.injEq] at h
        obtain ⟨acc', hacc', heq⟩ := h
        have hrec := ih hacc'
        rw [← heq]
        exact hrec
      | option t ot S K T r q sigma c beta ed =>
        simp only [aggLoop, if_neg hspy, Option.bind_eq_some,
          Option.some.injEq] at h
        obtain ⟨g, hgsome, acc', hacc', heq⟩ := h
        have hg := calculate_greeks_theta_vega_quantized hgsome
        have ha := ih hacc'
        rw [← heq]
        exact ⟨hg.1.add ha.1, hg.2.add ha.2⟩

/-- Claim C4, counterexample. Two disjoint one-leg equity portfolios
(`shares = 1`, `S = 0.02`, `beta = 1`, SPY at `500`, per-leg exposure
`0.00004`): aggregated together the summary `beta_weighted_delta` is
`0.0001`, while each part aggregates to `0`; the rounded summary fields are
not additive. -/
theorem aggregate_portfolio_greeks_additivity_counterexample :
    (aggregate_portfolio_greeks
        ([Position.equity (some "AAA") 1 0.02 (some 1)]
          ++ [Position.equity (some "BBB") 1 0.02 (some 1)]) 500).map
      (fun res => res.summary.beta_weighted_delta) = some 0.0001 ∧
    (aggregate_portfolio_greeks
        [Position.equity (some "AAA") 1 0.02 (some 1)] 500).map
      (fun res => res.summary.beta_weighted_delta) = some 0 ∧
    (aggregate_portfolio_greeks
        [Position.equity (some "BBB") 1 0.02 (some 1)] 500).map
      (fun res => res.summary.beta_weighted_delta) = some 0 ∧
    (0.0001 : ℝ) ≠ 0 + 0 := by
  have hbw : (1 : ℝ) * 0.02 * 1 / 500 = 0.00004 := by norm_num
  have hq1 : pyRound (0.00004 : ℝ) 4 = 0 := by
    have h := pyRound_eval 0.00004 4 0 (by norm_num) (by norm_num) (by norm_num)
    rw [h]
    norm_num
  have hq2 : pyRound (0.00008 : ℝ) 4 = 0.0001 := by
    have h := pyRound_eval 0.00008 4 1 (by norm_num) (by norm_num) (by norm_num)
    rw [h]
    norm_num
  refine ⟨?_, ?_, ?_, by norm_num⟩
  · have hloop : aggLoop
        ([Position.equity (some "AAA") 1 0.02 (some 1)]
          ++ [Position.equity (some "BBB") 1 0.02 (some 1)]) 500
        = some { bw_delta := 0.00008, bw_gamma := 0, theta := 0, vega := 0
                 details := [LegDetail.equity "AAA" 1 1 0 0 0 0 0,
                             LegDetail.equity "BBB" 1 1 0 0 0 0 0] } := by
      simp only [List.cons_append, List.nil_append, aggLoop,
        if_neg (by norm_num : ¬(500 : ℝ) = 0), Option.some_bind,
        Option.getD_some, hbw, hq1]
      norm_num
    unfold aggregate_portfolio_greeks
    rw [hloop]
    simp only [Option.map_some']
    rw [hq2]
  · have hloop : aggLoop [Position.equity (some "AAA") 1 0.02 (some 1)] 500
        = some { bw_delta := 0.00004, bw_gamma := 0, theta := 0, vega := 0
                 details := [LegDetail.equity "AAA" 1 1 0 0 0 0 0] } := by
      simp only [aggLoop, if_neg (by norm_num : ¬(500 : ℝ) = 0),
        Option.some_bind, Option.getD_some, hbw, hq1]
      norm_num
    unfold aggregate_portfolio_greeks
    rw [hloop]
    simp only [Option.map_some']
    rw [hq1]
  · have hloop : aggLoop [Position.equity (some "BBB") 1 0.02 (some 1)] 500
        = some { bw_delta := 0.00004, bw_gamma := 0, theta := 0, vega := 0
                 details := [LegDetail.equity "BBB" 1 1 0 0 0 0 0] } := by
      simp only [aggLoop, if_neg (by norm_num : ¬(500 : ℝ) = 0),
        Option.some_bind, Option.getD_some, hbw, hq1]
      norm_num
    unfold aggregate_portfolio_greeks
    rw [hloop]
    simp only [Option.map_some']
    rw [hq1]

/-- Claim C4, amended. For any position lists `A`, `B` and one SPY price for
which the aggregation succeeds: the unrounded running totals are exactly
additive, so the summary `total_theta_per_day` and `total_vega_per_pct`
fields (sums of per-leg values already rounded to 2 decimals) are exactly
additive, while `beta_weighted_delta` / `beta_weighted_gamma` are additive
before their final 4- resp. 6-decimal rounding: the combined field is the
rounding of the sum of the parts' unrounded totals. -/
theorem aggregate_portfolio_greeks_additivity (A B : List Position) (spy : ℝ)
    (hAB : (aggregate_portfolio_greeks (A ++ B) spy).isSome) :
    ∃ rA rB rAB : AggResult,
      aggregate_portfolio_greeks A spy = some rA ∧
      aggregate_portfolio_greeks B spy = some rB ∧
      aggregate_portfolio_greeks (A ++ B) spy = some rAB ∧
      rAB.summary.total_theta_per_day
        = rA.summary.total_theta_per_day + rB.summary.total_theta_per_day ∧
      rAB.summary.total_vega_per_pct
        = rA.summary.total_vega_per_pct + rB.summary.total_vega_per_pct ∧
      ∃ dA dB gA gB : ℝ,
        rA.summary.beta_weighted_delta = pyRound dA 4 ∧
        rB.summary.beta_weighted_delta = pyRound dB 4 ∧
        rAB.summary.beta_weighted_delta = pyRound (dA + dB) 4 ∧
        rA.summary.beta_weighted_gamma = pyRound gA 6 ∧
        rB.summary.beta_weighted_gamma = pyRound gB 6 ∧
        rAB.summary.beta_weighted_gamma = pyRound (gA + gB) 6 := by
  have hABloop : (aggLoop (A ++ B) spy).isSome := by
    obtain ⟨x, hx⟩ := Option.isSome_iff_exists.mp hAB
    unfold aggregate_portfolio_greeks at hx
    obtain ⟨acc, hacc, -⟩ := Option.map_eq_some'.mp hx
    rw [hacc]
    rfl
  obtain ⟨hA, hB⟩ := aggLoop_append_isSome hABloop
  obtain ⟨a, ha⟩ := Option.isSome_iff_exists.mp hA
  obtain ⟨b, hb⟩ := Option.isSome_iff_exists.mp hB
  have hab := aggLoop_append_some ha hb
  have hqa := aggLoop_theta_vega_quantized ha
  have hqb := aggLoop_theta_vega_quantized hb
  have hAgg : aggregate_portfolio_greeks A spy = some
      { spy_price_used := pyRound spy 2
        summary := { beta_weighted_delta := pyRound a.bw_delta 4
                     beta_weighted_gamma := pyRound a.bw_gamma 6
                     total_theta_per_day := pyRound a.theta 2
                     total_vega_per_pct := pyRound a.vega 2 }
        positions := a.details } := by
    unfold aggregate_portfolio_greeks
    rw [ha]
    rfl
  have hBgg : aggregate_portfolio_greeks B spy = some
      { spy_price_used := pyRound spy 2
        summary := { beta_weighted_delta := pyRound b.bw_delta 4
                     beta_weighted_gamma := pyRound b.bw_gamma 6
                     total_theta_per_day := pyRound b.theta 2
                     total_vega_per_pct := pyRound b.vega 2 }
        positions := b.details } := by
    unfold aggregate_portfolio_greeks
    rw [hb]
    rfl
  have hABgg : aggregate_portfolio_greeks (A ++ B) spy = some
      { spy_price_used := pyRound spy 2
        summary := { beta_weighted_delta := pyRound (a.bw_delta + b.bw_delta) 4
                     beta_weighted_gamma := pyRound (a.bw_gamma + b.bw_gamma) 6
                     total_theta_per_day := pyRound (a.theta + b.theta) 2
                     total_vega_per_pct := pyRound (a.vega + b.vega) 2 }
        positions := a.details ++ b.details } := by
    unfold aggregate_portfolio_greeks
    rw [hab]
    rfl
  refine ⟨_, _, _, hAgg, hBgg, hABgg, ?_, ?_,
    a.bw_delta, b.bw_delta, a.bw_gamma, b.bw_gamma, rfl, rfl, rfl, rfl, rfl, rfl⟩
  · show pyRound (a.theta + b.theta) 2 = pyRound a.theta 2 + pyRound b.theta 2
    rw [pyRound_of_quantized (hqa.1.add hqb.1), pyRound_of_quantized hqa.1,
      pyRound_of_quantized hqb.1]
  · show pyRound (a.vega + b.vega) 2 = pyRound a.vega 2 + pyRound b.vega 2
    rw [pyRound_of_quantized (hqa.2.add hqb.2), pyRound_of_quantized hqa.2,
      pyRound_of_quantized hqb.2]

/-- Witness for the amended C4 at `A = B = []`, SPY at `500`. -/
theorem aggregate_portfolio_greeks_additivity_witness :
    ∃ rA rB rAB : AggResult,
      aggregate_portfolio_greeks [] 500 = some rA ∧
      aggregate_portfolio_greeks [] 500 = some rB ∧
      aggregate_portfolio_greeks ([] ++ []) 500 = some rAB ∧
      rAB.summary.total_theta_per_day
        = rA.summary.total_theta_per_day + rB.summary.total_theta_per_day ∧
      rAB.summary.total_vega_per_pct
        = rA.summary.total_vega_per_pct + rB.summary.total_vega_per_pct ∧
      ∃ dA dB gA gB : ℝ,
        rA.summary.beta_weighted_delta = pyRound dA 4 ∧
        rB.summary.beta_weighted_delta = pyRound dB 4 ∧
        rAB.summary.beta_weighted_delta = pyRound (dA + dB) 4 ∧
        rA.summary.beta_weighted_gamma = pyRound gA 6 ∧
        rB.summary.beta_weighted_gamma = pyRound gB 6 ∧
        rAB.summary.beta_weighted_gamma = pyRound (gA + gB) 6 :=
  aggregate_portfolio_greeks_additivity [] [] 500 (by rfl)

/-- Claim C3. Whenever the combined aggregation succeeds,
`calculate_hypothetical_impact` returns, and its `after` summary is, field
by field and exactly, the summary of
`aggregate_portfolio_greeks (existing ++ [new])` computed from scratch. -/
theorem calculate_hypothetical_impact_after_eq (ex : List Position)
    (spy : ℝ) (t : Option String) (ot : String) (S K T r q sigma : ℝ)
    (c : ℤ) (beta : Option ℝ) (ed : Option String) (a : AggResult)
    (hB : aggregate_portfolio_greeks
        (ex ++ [Position.option t ot S K T r q sigma c beta ed]) spy
      = some a) :
    ∃ res : HypoResult,
      calculate_hypothetical_impact ex
        (Position.option t ot S K T r q sigma c beta ed) spy = some res ∧
      res.portfolio.after = a.summary := by
  have hABloop : (aggLoop
      (ex ++ [Position.option t ot S K T r q sigma c beta ed]) spy).isSome := by
    unfold aggregate_portfolio_greeks at hB
    obtain ⟨acc, hacc, -⟩ := Option.map_eq_some'.mp hB
    rw [hacc]
    rfl
  obtain ⟨hA, hN⟩ := aggLoop_append_isSome hABloop
  obtain ⟨accA, haccA⟩ := Option.isSome_iff_exists.mp hA
  obtain ⟨accN, haccN⟩ := Option.isSome_iff_exists.mp hN
  have hAgg : ∃ rA, aggregate_portfolio_greeks ex spy = some rA := by
    unfold aggregate_portfolio_greeks
    rw [haccA]
    exact ⟨_, rfl⟩
  have hNgg : ∃ rN, aggregate_portfolio_greeks
      [Position.option t ot S K T r q sigma c beta ed] spy = some rN := by
    unfold aggregate_portfolio_greeks
    rw [haccN]
    exact ⟨_, rfl⟩
  obtain ⟨rA, hrA⟩ := hAgg
  obtain ⟨rN, hrN⟩ := hNgg
  unfold calculate_hypothetical_impact
  rw [hrA, Option.some_bind, hB, Option.some_bind, hrN, Option.some_bind]
  exact ⟨_, rfl, rfl⟩

/-- Concrete aggregation of a single degenerate option leg (the leg of
`calculate_greeks_eval_itm`, `beta = 1`, SPY at `500`). -/
theorem aggregate_portfolio_greeks_eval_option_leg :
    aggregate_portfolio_greeks
        [Position.option (some "TST") "call" 1 0.99996 0 0 0 0 3 (some 1) none]
        500
      = some { spy_price_used := 500
               summary := { beta_weighted_delta := 0.3012
                            beta_weighted_gamma := 0.11952
                            total_theta_per_day := 0
                            total_vega_per_pct := 0 }
               positions := [LegDetail.option "TST" "call" 0.99996 3
                 0.502 99.6 0 0 0.3012 0.11952] } := by
  have hbwd : (0.502 : ℝ) * 1 * 1 / 500 * (((3 : ℤ) : ℝ) * 100) = 0.3012 := by
    norm_num
  have hbwg : (99.6 : ℝ) * 1 ^ 2 * 1 ^ 2 / 500 ^ 2 * (((3 : ℤ) : ℝ) * 100)
      = 0.11952 := by norm_num
  have hq1 : pyRound (0.3012 : ℝ) 4 = 0.3012 :=
    pyRound_of_quantized ⟨3012, by norm_num⟩
  have hq2 : pyRound (0.11952 : ℝ) 6 = 0.11952 :=
    pyRound_of_quantized ⟨119520, by norm_num⟩
  have hloop : aggLoop
      [Position.option (some "TST") "call" 1 0.99996 0 0 0 0 3 (some 1) none]
      500 = some { bw_delta := 0.3012, bw_gamma := 0.11952, theta := 0
                   vega := 0
                   details := [LegDetail.option "TST" "call" 0.99996 3
                     0.502 99.6 0 0 0.3012 0.11952] } := by
    simp only [aggLoop, if_neg (by norm_num : ¬(500 : ℝ) = 0),
      calculate_greeks_eval_itm, Option.some_bind, Option.getD_some,
      hbwd, hbwg, hq1, hq2]
    norm_num
  unfold aggregate_portfolio_greeks
  rw [hloop]
  simp only [Option.map_some']
  rw [pyRound_of_quantized (⟨50000, by norm_num⟩ : IsQuantized 2 (500 : ℝ)),
    hq1, hq2, pyRound_zero]

/-- Witness for C3: empty existing portfolio plus the concrete degenerate
call leg, SPY at `500`. -/
theorem calculate_hypothetical_impact_after_eq_witness :
    ∃ res : HypoResult,
      calculate_hypothetical_impact []
        (Position.option (some "TST") "call" 1 0.99996 0 0 0 0 3 (some 1) none)
        500 = some res ∧
      res.portfolio.after
        = ({ spy_price_used := 500
             summary := { beta_weighted_delta := 0.3012
                          beta_weighted_gamma := 0.11952
                          total_theta_per_day := 0
                          total_vega_per_pct := 0 }
             positions := [LegDetail.option "TST" "call" 0.99996 3
               0.502 99.6 0 0 0.3012 0.11952] } : AggResult).summary :=
  calculate_hypothetical_impact_after_eq [] 500 (some "TST") "call"
    1 0.99996 0 0 0 0 3 (some 1) none _
    aggregate_portfolio_greeks_eval_option_leg
